import Mathlib

/-!
# Verification of the Quantum-Calendar anchor & month-length engine

A shallow embedding, in Lean 4, of the core calendar engine of the
Quantum-Calendar repository:

* `backend/astronomy/sun.py` — `get_event_with_fallback` (twilight-tier
  resolver with latitude migration),
* `backend/astronomy/moon.py` — `find_first_dawn_after`, `count_dawn_cycles`,
* `backend/astronomy/year.py` — `find_prev_next_new_year`,
* `backend/astronomy/years.py` — `get_multi_year_calendar_data`,
* `backend/data.py` — the fallback CSV loader `_read_csv_as_fallback_df`.

Modelling conventions:

* An instant (a timezone-aware `datetime`; such values compare by absolute
  time) is an `Int` — think minutes since an epoch.
* A civil calendar date (`datetime.date`; dates shifted with
  `timedelta(days=i)`) is an `Int` ordinal, `+ i` being `+ timedelta(days=i)`.
* Latitudes are exact rationals `ℚ`.  (Python stores them as binary floats;
  for the latitudes analysed here — e.g. `64.15` — the repeated `± 1`
  arithmetic of the migration loop is governed by the same sign/zero facts
  as the exact rationals, and no conclusion below depends on rounding.)
* The external `astral` library calls (`dawn`/`dusk`/`sunrise`/`sunset`,
  which either return a time or raise, the resolver catching every
  exception) are an abstract oracle: a function returning `Option Int`,
  `none` standing for "the call raised".
* Python `None` is `Option.none`; a `(time, tag)` pair is
  `Option Int × Tag`.
* Loops whose termination is not structurally evident are given explicit
  fuel and return `Option _`, `none` meaning "still running after `fuel`
  iterations"; theorems about results hold for every fuel that suffices.
-/

/-- Confidence tags of the resolver (`sun.py` returns these as strings). -/
inductive Tag where
  | astronomical
  | nautical
  | civil
  | sunriseTag
  | sunsetTag
  | migrated
  | notFound
deriving DecidableEq, Repr

/-- The two event kinds accepted by `get_event_with_fallback`. -/
inductive EventKind where
  | dawnKind
  | duskKind
deriving DecidableEq, Repr

/-- The external `astral` calls made by `sun.py`, for one fixed
(`lon`, `tzName`, `civilDate`):  `deprEvent k lat d` is the dawn/dusk call at
latitude `lat` with depression angle `d`, `horizonEvent k lat` the geometric
`sunrise`/`sunset` call; `none` means the library raised an exception. -/
structure AstralOracle where
  deprEvent : EventKind → ℚ → ℚ → Option Int
  horizonEvent : EventKind → ℚ → Option Int

/-- One nudge of the migration loop of `sun.py`
(`migrated_lat = migrated_lat - 1 if migrated_lat > 0 else migrated_lat + 1`). -/
def migStep (m : ℚ) : ℚ :=
  if 0 < m then m - 1 else m + 1

/-- The latitude-migration loop of `get_event_with_fallback`
(`sun.py` lines 138–148 / 170–180):

```
migrated_lat = lat
while abs(migrated_lat) > 0:
    migrated_lat = migrated_lat - 1 if migrated_lat > 0 else migrated_lat + 1
    try:
        t = dawn(observer(migrated_lat), date, depression=18); return t, 'migrated'
    except Exception:
        continue
return None, 'not_found'
```

`try18 m` is the tier-1 retry at latitude `m`.  The result is `none` while
the loop is still running after `fuel` iterations, `some r` once it
returned `r`. -/
def migrate (try18 : ℚ → Option Int) : Nat → ℚ → Option (Option Int × Tag)
  | 0, m => if 0 < |m| then none else some (none, Tag.notFound)
  | fuel + 1, m =>
    if 0 < |m| then
      let m' := migStep m
      match try18 m' with
      | some t => some (some t, Tag.migrated)
      | none => migrate try18 fuel m'
    else
      some (none, Tag.notFound)

/-- `get_event_with_fallback(event_type, lat, lon, timezone, date_)` from
`sun.py`: the ordered tier chain 18° → 12° → 6° → geometric horizon
crossing, then latitude migration.  The dawn and dusk branches of the
source are textually identical apart from which `astral` function is called
and the tier-4 tag, which is what `kind` selects here.  The outer `Option`
is the migration loop's fuel: `none` only when all four tiers failed and
the migration loop is still running. -/
def get_event_with_fallback (O : AstralOracle) (kind : EventKind) (lat : ℚ)
    (fuel : Nat) : Option (Option Int × Tag) :=
  match O.deprEvent kind lat 18 with
  | some t => some (some t, Tag.astronomical)
  | none =>
    match O.deprEvent kind lat 12 with
    | some t => some (some t, Tag.nautical)
    | none =>
      match O.deprEvent kind lat 6 with
      | some t => some (some t, Tag.civil)
      | none =>
        match O.horizonEvent kind lat with
        | some t =>
          some (some t,
            match kind with
            | EventKind.dawnKind => Tag.sunriseTag
            | EventKind.duskKind => Tag.sunsetTag)
        | none => migrate (fun m => O.deprEvent kind m 18) fuel lat

/-- Minutes in a calendar day; `timedelta(days=1)` on the instant scale. -/
def minutesPerDay : Int := 1440

/-- Environment of a dawn query at one fixed (`lat`, `lon`, `tzName`):
`dateOf t` is the local civil date of instant `t`
(`t.astimezone(local_tz).date()`), and `resolve d` is
`get_event_with_fallback('dawn', lat, lon, tzname, d)` for civil date `d` —
the resolver of `sun.py` seen as a black box by `moon.py`. -/
structure DawnEnv where
  dateOf : Int → Int
  resolve : Int → Option Int × Tag

/-- The probe loop of `find_first_dawn_after` (`moon.py` lines 25–31) over an
explicit list of candidate civil dates:

```
dawn, tag = get_event_with_fallback('dawn', lat, lon, tzname, candidate_date)
if dawn:
    if dawn > dt_local:
        return dawn, tag
```

falling through to `(None, 'not_found')` when the candidates run out. -/
def firstDawnSearch (env : DawnEnv) (t : Int) : List Int → Option Int × Tag
  | [] => (none, Tag.notFound)
  | d :: ds =>
    match env.resolve d with
    | (some dawn, tag) =>
      if t < dawn then (some dawn, tag) else firstDawnSearch env t ds
    | (none, _) => firstDawnSearch env t ds

/-- `find_first_dawn_after(dt_utc, lat, lon, tzname)` from `moon.py`: probe
the resolver on the local civil date of `dtUtc` and the 9 following dates
(`for i in range(0, 10): candidate_date = search_date + timedelta(days=i)`),
returning the first resolved dawn strictly later than `dtUtc`.  (Aware
datetimes compare by absolute instant, so `dawn > dt_local` is `dtUtc < dawn`
on the instant scale.) -/
def find_first_dawn_after (env : DawnEnv) (dtUtc : Int) : Option Int × Tag :=
  firstDawnSearch env dtUtc
    ((List.range 10).map fun i : Nat => env.dateOf dtUtc + (i : Int))

/-- The accumulation loop of `count_dawn_cycles` (`moon.py` lines 36–43):

```
while True:
    next_date = (current + timedelta(days=1)).date()
    next_dawn, _ = get_event_with_fallback('dawn', lat, lon, tzname, next_date)
    if not next_dawn or next_dawn > end_dawn:
        break
    dawns.append(next_dawn)
    current = next_dawn
```

`fuel` bounds the iterations; the result is `none` when the loop is still
running after `fuel` of them (the Python loop has no bound of its own),
and `some dawns` with the accumulated list when it breaks. -/
def cdcLoop (env : DawnEnv) (endDawn : Int) :
    Nat → Int → List Int → Option (List Int)
  | 0, _, _ => none
  | fuel + 1, current, dawns =>
    match (env.resolve (env.dateOf (current + minutesPerDay))).1 with
    | none => some dawns
    | some nextDawn =>
      if endDawn < nextDawn then some dawns
      else cdcLoop env endDawn fuel nextDawn (dawns ++ [nextDawn])

/-- `count_dawn_cycles(start_dawn, end_dawn, lat, lon, tzname)` from
`moon.py`: run the accumulation loop from `dawns = [start_dawn]`, append
`end_dawn` when `dawns[-1] < end_dawn`, and return `len(dawns) - 1`.
`none` only when the unbounded source loop outruns `fuel`. -/
def count_dawn_cycles (env : DawnEnv) (fuel : Nat) (startDawn endDawn : Int) :
    Option Nat :=
  (cdcLoop env endDawn fuel startDawn [startDawn]).map fun dawns =>
    let finalDawns :=
      if dawns.getLastD startDawn < endDawn then dawns ++ [endDawn] else dawns
    finalDawns.length - 1

/-- Python's builtin `max` over a possibly-empty selection, as exposed by the
series types the loaders return (`_Series.max` in `data.py`:
`max(self._data) if self._data else None`; an empty pandas selection yields
the `NaT` sentinel — both modelled as `none`). -/
def seriesMax : List Int → Option Int
  | [] => none
  | x :: xs => some (xs.foldl max x)

/-- Python's builtin `min` over a possibly-empty selection (`_Series.min` in
`data.py`), `none` for the empty-selection sentinel. -/
def seriesMin : List Int → Option Int
  | [] => none
  | x :: xs => some (xs.foldl min x)

/-- `find_prev_next_new_year(now_utc)` from `year.py`, the parsed new-year
anchor series being its explicit input here:
`prev = times[times <= now_utc].max()`, `nxt = times[times > now_utc].min()`. -/
def find_prev_next_new_year (anchors : List Int) (nowUtc : Int) :
    Option Int × Option Int :=
  (seriesMax (anchors.filter fun t => t ≤ nowUtc),
   seriesMin (anchors.filter fun t => nowUtc < t))

/-- One month record of `get_multi_year_calendar_data` (`years.py` line 36):
`{'start': dawn, 'days': days, 'dawn_tag': dawn_tag, 'full_moon_utc': moon}`.
`days = none` models Python `None` (and, as everywhere here, the fuel
artifact of the unbounded counting loop). -/
structure MonthRec where
  start : Option Int
  days : Option Nat
  dawn_tag : Tag
  full_moon_utc : Int
deriving DecidableEq, Repr

/-- The per-moon body of the months loop of `get_multi_year_calendar_data`
(`years.py` lines 26–36): resolve the dawn after the month's full moon and
after its closing boundary (the next full moon, or the next anchor for the
last month); `days` is the dawn-cycle count when both resolved, else `None`. -/
def buildMonth (env : DawnEnv) (fuel : Nat) (moon nextBoundary : Int) :
    MonthRec :=
  let d := find_first_dawn_after env moon
  let nd := find_first_dawn_after env nextBoundary
  let days :=
    match d.1, nd.1 with
    | some a, some b => count_dawn_cycles env fuel a b
    | _, _ => none
  ⟨d.1, days, d.2, moon⟩

/-- The months loop of `get_multi_year_calendar_data` (`years.py` lines
25–36): one record per full moon of the year cycle, each month's closing
boundary being the next moon, and the year's `next_anchor` for the last. -/
def buildMonths (env : DawnEnv) (fuel : Nat) :
    List Int → Int → List MonthRec
  | [], _ => []
  | [m], anchor => [buildMonth env fuel m anchor]
  | m :: m2 :: rest, anchor =>
    buildMonth env fuel m m2 :: buildMonths env fuel (m2 :: rest) anchor

/-- One year entry of `get_multi_year_calendar_data`
(`{'year': year, 'months': months}`). -/
structure YearRec where
  year : Int
  months : List MonthRec
deriving DecidableEq, Repr

/-- Consecutive pairs of the anchor list:
`for i, anchor in enumerate(anchors[:-1]): next_anchor = anchors[i+1]`. -/
def adjacentPairs : List Int → List (Int × Int)
  | [] => []
  | [_] => []
  | a :: b :: rest => (a, b) :: adjacentPairs (b :: rest)

/-- `get_multi_year_calendar_data(start_year, end_year, lat, lon, tzname)`
from `years.py`: filter the new-year anchors to years in
`[start_year, end_year + 1]`, and for each consecutive anchor pair build the
months from the full moons `m` with `anchor <= m < next_anchor`.  `yearOf`
is `datetime.year`; `newYears` and `fullMoons` are the two parsed reference
series. -/
def get_multi_year_calendar_data (env : DawnEnv) (yearOf : Int → Int)
    (fuel : Nat) (newYears fullMoons : List Int) (startYear endYear : Int) :
    List YearRec :=
  let anchors := newYears.filter fun dt =>
    decide (startYear ≤ yearOf dt ∧ yearOf dt ≤ endYear + 1)
  (adjacentPairs anchors).map fun p =>
    let moons := fullMoons.filter fun m => decide (p.1 ≤ m ∧ m < p.2)
    ⟨yearOf p.1, buildMonths env fuel moons p.2⟩

/-- The row-accumulation loop of `_read_csv_as_fallback_df` (`data.py`):

```
for row in reader:
    for field, value in row.items():
        cols[field].append(value)
```

restricted to the timestamp column: each row's value is appended to the
column in file order, with no validation of any kind.  `rows` is the
sequence of values of that column as they appear in the file. -/
def read_csv_fallback_column (rows : List Int) : List Int :=
  rows.foldl (fun cols v => cols ++ [v]) []

/-! ## Concrete sample inputs used by the witnesses -/

/-- An oracle whose 18° call always succeeds (a mid-latitude day). -/
def clearSkyOracle : AstralOracle :=
  ⟨fun _ _ _ => some 100, fun _ _ => none⟩

/-- A dawn environment whose resolver always succeeds, the dawn of civil
date `d` falling at instant `d + 1`; `dateOf` is the identity scale. -/
def sampleDawnEnv : DawnEnv :=
  ⟨fun t => t, fun d => (some (d + 1), Tag.astronomical)⟩

/-- A dawn environment whose resolver never finds a dawn. -/
def barrenDawnEnv : DawnEnv :=
  ⟨fun t => t, fun _ => (none, Tag.notFound)⟩

/-! ## Helper lemmas -/

/-- Folding `max` from a lower bound over an ascending run starts at the
head: `a ≤ x` absorbs `a`. -/
theorem foldl_max_absorb (a x : Int) (xs : List Int) (h : a ≤ x) :
    (x :: xs).foldl max a = xs.foldl max x := by
  simp [List.foldl, max_eq_right h]

/-- Folding `min` over elements that all dominate the accumulator returns
the accumulator. -/
theorem foldl_min_of_le (x : Int) :
    ∀ xs : List Int, (∀ b ∈ xs, x ≤ b) → xs.foldl min x = x := by
  intro xs
  induction xs with
  | nil => intro _; rfl
  | cons b bs ih =>
    intro h
    have hxb : x ≤ b := h b (List.mem_cons_self b bs)
    have : min x b = x := min_eq_left hxb
    simpa [List.foldl, this] using ih fun c hc => h c (List.mem_cons_of_mem _ hc)

/-- The row loop of the fallback loader is a verbatim copy of the file's
rows. -/
theorem foldl_append_eq (l rows : List Int) :
    rows.foldl (fun cols v => cols ++ [v]) l = l ++ rows := by
  induction rows generalizing l with
  | nil => simp
  | cons r rs ih => simp [List.foldl, ih]

/-! ## C6 — tier order of the twilight resolver -/

/-- C6: for every dawn (and dusk) query, `resolveEvent`
(`get_event_with_fallback`) tries the depression tiers in the fixed order
18° → 12° → 6° → geometric horizon crossing, returns the first tier that
succeeds tagged `astronomical` / `nautical` / `civil` / `sunrise`
(`sunset` for dusk), and reaches a later tier — finally the migration
loop — only when every earlier tier failed. -/
theorem resolveEvent_tier_order (O : AstralOracle) (kind : EventKind)
    (lat : ℚ) (fuel : Nat) :
    (∀ t, O.deprEvent kind lat 18 = some t →
      get_event_with_fallback O kind lat fuel = some (some t, Tag.astronomical)) ∧
    (O.deprEvent kind lat 18 = none →
      ∀ t, O.deprEvent kind lat 12 = some t →
      get_event_with_fallback O kind lat fuel = some (some t, Tag.nautical)) ∧
    (O.deprEvent kind lat 18 = none → O.deprEvent kind lat 12 = none →
      ∀ t, O.deprEvent kind lat 6 = some t →
      get_event_with_fallback O kind lat fuel = some (some t, Tag.civil)) ∧
    (O.deprEvent kind lat 18 = none → O.deprEvent kind lat 12 = none →
      O.deprEvent kind lat 6 = none →
      ∀ t, O.horizonEvent kind lat = some t →
      get_event_with_fallback O kind lat fuel =
        some (some t,
          match kind with
          | EventKind.dawnKind => Tag.sunriseTag
          | EventKind.duskKind => Tag.sunsetTag)) ∧
    (O.deprEvent kind lat 18 = none → O.deprEvent kind lat 12 = none →
      O.deprEvent kind lat 6 = none → O.horizonEvent kind lat = none →
      get_event_with_fallback O kind lat fuel =
        migrate (fun m => O.deprEvent kind m 18) fuel lat) := by
  refine ⟨?_, ?_, ?_, ?_, ?_⟩
  · intro t h; simp [get_event_with_fallback, h]
  · intro h18 t h; simp [get_event_with_fallback, h18, h]
  · intro h18 h12 t h; simp [get_event_with_fallback, h18, h12, h]
  · intro h18 h12 h6 t h; simp [get_event_with_fallback, h18, h12, h6, h]
  · intro h18 h12 h6 hs; simp [get_event_with_fallback, h18, h12, h6, hs]

/-- Witness for C6: under an oracle whose 18° call succeeds, the resolver
answers at tier 1 with the `astronomical` tag. -/
theorem resolveEvent_tier_order_witness :
    get_event_with_fallback clearSkyOracle EventKind.dawnKind 51 0 =
      some (some 100, Tag.astronomical) :=
  (resolveEvent_tier_order clearSkyOracle EventKind.dawnKind 51 0).1 100 rfl

/-! ## C9 — the loaders do not validate ordering -/

/-- Counterexample for C9: a file whose timestamp column is out of order
(`[2, 1]`) is loaded verbatim by the fallback loader — both rows are kept,
in file order, and the resulting series is not strictly increasing, so the
loader neither rejects nor skips the malformed row. -/
theorem loader_no_validation_counterexample :
    read_csv_fallback_column [(2 : Int), 1] = [2, 1] ∧
    ¬ List.Chain' (· < ·) (read_csv_fallback_column [(2 : Int), 1]) ∧
    (read_csv_fallback_column [(2 : Int), 1]).length = 2 := by
  refine ⟨rfl, ?_, rfl⟩
  intro h
  have h21 : (2 : Int) < 1 := (List.chain'_cons.mp h).1
  omega

/-- C9 (amended): the loader copies the file's rows verbatim — no row is
rejected, skipped or reordered — so the loaded reference series is strictly
increasing exactly when the underlying CSV file already is; the invariant
is a property of the shipped data, not enforced by the loader. -/
theorem loader_passthrough (rows : List Int) :
    read_csv_fallback_column rows = rows ∧
    (List.Chain' (· < ·) (read_csv_fallback_column rows) ↔
      List.Chain' (· < ·) rows) := by
  have h : read_csv_fallback_column rows = rows := by
    simpa using foldl_append_eq [] rows
  exact ⟨h, by rw [h]⟩

/-! ## C2 — `find_first_dawn_after` -/

/-- If no probed date yields a dawn strictly later than `t`, the search
falls through to `(None, 'not_found')`. -/
theorem firstDawnSearch_not_found (env : DawnEnv) (t : Int) :
    ∀ ds : List Int,
      (∀ d ∈ ds, ∀ w, (env.resolve d).1 = some w → w ≤ t) →
      firstDawnSearch env t ds = (none, Tag.notFound) := by
  intro ds
  induction ds with
  | nil => intro _; rfl
  | cons d ds ih =>
    intro h
    have hd := h d (List.mem_cons_self d ds)
    have hds : ∀ d' ∈ ds, ∀ w, (env.resolve d').1 = some w → w ≤ t :=
      fun d' hd' => h d' (List.mem_cons_of_mem _ hd')
    rcases hr : env.resolve d with ⟨o, tg⟩
    cases o with
    | none => simpa [firstDawnSearch, hr] using ih hds
    | some w =>
      have hw : w ≤ t := hd w (by rw [hr])
      have : ¬ t < w := not_lt.mpr hw
      simpa [firstDawnSearch, hr, this] using ih hds

/-- When the search returns a dawn, that dawn comes from some probed date,
is strictly later than `t`, and every earlier probe either raised or
produced a dawn not later than `t`. -/
theorem firstDawnSearch_found (env : DawnEnv) (t : Int) :
    ∀ (ds : List Int) (v : Int) (tag : Tag),
      firstDawnSearch env t ds = (some v, tag) →
      ∃ pre d post, ds = pre ++ d :: post ∧
        (∀ d' ∈ pre, ∀ w, (env.resolve d').1 = some w → w ≤ t) ∧
        env.resolve d = (some v, tag) ∧ t < v := by
  intro ds
  induction ds with
  | nil => intro v tag h; exact absurd h (by simp [firstDawnSearch])
  | cons d ds ih =>
    intro v tag h
    rcases hr : env.resolve d with ⟨o, tg⟩
    cases o with
    | none =>
      simp only [firstDawnSearch, hr] at h
      obtain ⟨pre, d', post, hsplit, hpre, hres, hlt⟩ := ih v tag h
      refine ⟨d :: pre, d', post, by simp [hsplit], ?_, hres, hlt⟩
      intro x hx w hw
      rcases List.mem_cons.mp hx with hx0 | hx1
      · subst hx0; rw [hr] at hw; exact absurd hw (by simp)
      · exact hpre x hx1 w hw
    | some w =>
      simp only [firstDawnSearch, hr] at h
      by_cases hlt : t < w
      · rw [if_pos hlt] at h
        have hw : w = v := Option.some.inj (congrArg Prod.fst h)
        have htag : tg = tag := congrArg Prod.snd h
        subst hw; subst htag
        exact ⟨[], d, ds, by simp, by simp, hr, hlt⟩
      · rw [if_neg hlt] at h
        obtain ⟨pre, d', post, hsplit, hpre, hres, hlt'⟩ := ih v tag h
        refine ⟨d :: pre, d', post, by simp [hsplit], ?_, hres, hlt'⟩
        intro x hx w' hw'
        rcases List.mem_cons.mp hx with hx0 | hx1
        · subst hx0
          rw [hr] at hw'
          have hww : w = w' := Option.some.inj hw'
          exact hww ▸ not_lt.mp hlt
        · exact hpre x hx1 w' hw'

/-- C2: `find_first_dawn_after` converts the instant to its local civil
date, probes the resolver on that date and up to 9 subsequent dates (10
total), returns the first resolved dawn strictly later than the instant
together with its confidence tag, and returns `(None, 'not_found')` when
no probe within the horizon qualifies. -/
theorem firstDawnAfter_spec (env : DawnEnv) (dtUtc : Int) :
    (∀ v tag, find_first_dawn_after env dtUtc = (some v, tag) →
      dtUtc < v ∧ ∃ i : Nat, i < 10 ∧
        env.resolve (env.dateOf dtUtc + (i : Int)) = (some v, tag) ∧
        ∀ j : Nat, j < i →
          ∀ w, (env.resolve (env.dateOf dtUtc + (j : Int))).1 = some w →
            w ≤ dtUtc) ∧
    ((∀ i : Nat, i < 10 →
        ∀ w, (env.resolve (env.dateOf dtUtc + (i : Int))).1 = some w →
          w ≤ dtUtc) →
      find_first_dawn_after env dtUtc = (none, Tag.notFound)) := by
  constructor
  · intro v tag h
    obtain ⟨pre, d, post, hsplit, hpre, hres, hlt⟩ :=
      firstDawnSearch_found env dtUtc _ v tag h
    have h10 : pre.length < 10 := by
      have := congrArg List.length hsplit
      rw [List.length_map, List.length_range, List.length_append,
        List.length_cons] at this
      omega
    refine ⟨hlt, pre.length, h10, ?_, ?_⟩
    · have hd : d = env.dateOf dtUtc + (pre.length : Int) := by
        have hget := congrArg (fun l => l.get? pre.length) hsplit
        simp only [List.get?_map, List.get?_range h10, Option.map_some',
          List.get?_append_right (le_refl pre.length), Nat.sub_self,
          List.get?_cons_zero] at hget
        exact (Option.some.inj hget).symm
      rw [← hd]; exact hres
    · intro j hj w hw
      have hjd : env.dateOf dtUtc + (j : Int) ∈ pre := by
        have hget := congrArg (fun l => l.get? j) hsplit
        simp only [List.get?_map, List.get?_range (by omega : j < 10),
          Option.map_some', List.get?_append (hj : j < pre.length)] at hget
        exact List.get?_mem hget.symm
      exact hpre _ hjd w hw
  · intro h
    apply firstDawnSearch_not_found
    intro d hd w hw
    obtain ⟨i, hi, rfl⟩ := by
      simpa [List.mem_map, List.mem_range] using hd
    exact h i hi w hw

/-! ## C3 — (non-)termination of the latitude migration -/

/-- The migration loop halts, for some amount of fuel. -/
def migrationTerminates (try18 : ℚ → Option Int) (lat : ℚ) : Prop :=
  ∃ fuel, (migrate try18 fuel lat).isSome

/-- The set the migration latitude oscillates in once it starts from
`3/20 + k` (`0.15 + k`, e.g. `64.15`): stepping stays inside and never
reaches `0`. -/
def oscSet (m : ℚ) : Prop := m = -17/20 ∨ ∃ k : ℕ, m = 3/20 + k

/-- Latitudes in the oscillation set are never zero. -/
theorem oscSet_ne_zero (m : ℚ) (h : oscSet m) : m ≠ 0 := by
  rcases h with rfl | ⟨k, rfl⟩
  · norm_num
  · positivity

/-- The oscillation set is closed under the migration step. -/
theorem oscSet_step (m : ℚ) (h : oscSet m) : oscSet (migStep m) := by
  rcases h with rfl | ⟨k, rfl⟩
  · have hneg : ¬ (0 : ℚ) < -17/20 := by norm_num
    right
    exact ⟨0, by rw [migStep, if_neg hneg]; norm_num⟩
  · have hpos : (0 : ℚ) < 3/20 + k := by positivity
    rw [migStep, if_pos hpos]
    cases k with
    | zero => left; norm_num
    | succ k' => right; exact ⟨k', by push_cast; ring⟩

/-- With every 18° retry failing, the migration loop started anywhere in
the oscillation set is still running whatever the fuel. -/
theorem migrate_osc_none :
    ∀ (fuel : Nat) (m : ℚ), oscSet m →
      migrate (fun _ => none) fuel m = none := by
  intro fuel
  induction fuel with
  | zero =>
    intro m hm
    have hpos : 0 < |m| := abs_pos.mpr (oscSet_ne_zero m hm)
    rw [migrate, if_pos hpos]
  | succ n ih =>
    intro m hm
    have hpos : 0 < |m| := abs_pos.mpr (oscSet_ne_zero m hm)
    simp only [migrate, if_pos hpos]
    exact ih (migStep m) (oscSet_step m hm)

/-- Counterexample for C3: at the non-integer latitude 64.15 (= 1283/20,
the spec's own Reykjavik example), with every 18° retry failing, the
migration loop never terminates — the latitude oscillates between 0.15 and
-0.85 and never reaches 0, so the loop neither returns `migrated` nor
reaches the `not_found` exit. -/
theorem migration_nonterminating_counterexample :
    ¬ migrationTerminates (fun _ => none) (1283/20 : ℚ) := by
  rintro ⟨fuel, hsome⟩
  have hosc : oscSet (1283/20 : ℚ) := Or.inr ⟨64, by norm_num⟩
  rw [migrate_osc_none fuel (1283/20 : ℚ) hosc] at hsome
  simp at hsome

/-- With fuel still to burn, integer latitudes drive the migration loop to
an answer: each step moves the (integer) latitude one closer to 0. -/
theorem migrate_int_halts (try18 : ℚ → Option Int) :
    ∀ (n : Nat) (m : ℤ), m.natAbs ≤ n →
      ∃ r, migrate try18 n (m : ℚ) = some r ∧
        (r.2 = Tag.migrated ∨ r = (none, Tag.notFound)) := by
  intro n
  induction n with
  | zero =>
    intro m hm
    have hz : m = 0 := by omega
    subst hz
    exact ⟨(none, Tag.notFound), by simp [migrate], Or.inr rfl⟩
  | succ n ih =>
    intro m hm
    by_cases hz : m = 0
    · subst hz
      exact ⟨(none, Tag.notFound), by simp [migrate], Or.inr rfl⟩
    · have hpos : 0 < |(m : ℚ)| :=
        abs_pos.mpr (Int.cast_ne_zero.mpr hz)
      have hcast : migStep (m : ℚ) = ((if 0 < m then m - 1 else m + 1 : ℤ) : ℚ) := by
        rw [migStep]
        by_cases h0 : 0 < m
        · rw [if_pos (by exact_mod_cast h0), if_pos h0]; push_cast; ring
        · rw [if_neg (by exact_mod_cast h0), if_neg h0]; push_cast; ring
      have habs : (if 0 < m then m - 1 else m + 1 : ℤ).natAbs ≤ n := by
        split <;> omega
      simp only [migrate, if_pos hpos, hcast]
      rcases ht : try18 ((if 0 < m then m - 1 else m + 1 : ℤ) : ℚ) with _ | t
      · exact ih _ habs
      · exact ⟨(some t, Tag.migrated), rfl, Or.inl rfl⟩

/-- C3 (amended): for every oracle and every *integer* starting latitude,
the migration loop terminates within `|lat|` steps, returning either a
`migrated` event or `(None, 'not_found')` once latitude reaches 0.  (For
non-integer latitudes termination fails when every retry fails — see the
counterexample.) -/
theorem migration_terminates_integer_lat (try18 : ℚ → Option Int) (m : ℤ) :
    ∃ r, migrate try18 m.natAbs (m : ℚ) = some r ∧
      (r.2 = Tag.migrated ∨ r = (none, Tag.notFound)) :=
  migrate_int_halts try18 m.natAbs m (le_refl _)

/-! ## C1 / C10 — `count_dawn_cycles` -/

/-- Modelled from the spec: "Starting from `startDawn`, repeatedly advances
one calendar day at a time, resolving the dawn for each successive day,
accumulating dawn instants into an ordered list, and stops the first time a
resolved dawn instant exceeds `endDawn` or no dawn resolves."
`specAccumRun env endDawn c tail` holds when `tail` is the list of dawns
accumulated after the current dawn `c` under that description. -/
inductive specAccumRun (env : DawnEnv) (endDawn : Int) : Int → List Int → Prop
  | stopNone (c : Int) :
      (env.resolve (env.dateOf (c + minutesPerDay))).1 = none →
      specAccumRun env endDawn c []
  | stopExceeds (c d : Int) :
      (env.resolve (env.dateOf (c + minutesPerDay))).1 = some d →
      endDawn < d → specAccumRun env endDawn c []
  | step (c d : Int) (l : List Int) :
      (env.resolve (env.dateOf (c + minutesPerDay))).1 = some d →
      d ≤ endDawn → specAccumRun env endDawn d l →
      specAccumRun env endDawn c (d :: l)

/-- Modelled from the spec: "If the last accumulated dawn is strictly
before `endDawn`, `endDawn` itself is appended as a closing boundary" —
the final dawn list, from `startDawn` and the accumulated `tail`. -/
def specCloseDawns (startDawn endDawn : Int) (tail : List Int) : List Int :=
  if (startDawn :: tail).getLastD startDawn < endDawn then
    (startDawn :: tail) ++ [endDawn]
  else startDawn :: tail

/-- Every dawn the loop accumulates is at most `endDawn`. -/
theorem specAccumRun_all_le (env : DawnEnv) (e : Int) (c : Int)
    (tail : List Int) (h : specAccumRun env e c tail) :
    ∀ x ∈ tail, x ≤ e := by
  induction h with
  | stopNone c _ => simp
  | stopExceeds c d _ _ => simp
  | step c d l _ hle _ ih =>
    intro x hx
    rcases List.mem_cons.mp hx with rfl | hmem
    · exact hle
    · exact ih x hmem

/-- Soundness of the fueled loop: whatever `cdcLoop` returns extends the
accumulator by a run of the spec's accumulation relation. -/
theorem cdcLoop_sound (env : DawnEnv) (e : Int) :
    ∀ (fuel : Nat) (c : Int) (acc out : List Int),
      cdcLoop env e fuel c acc = some out →
      ∃ tail, out = acc ++ tail ∧ specAccumRun env e c tail := by
  intro fuel
  induction fuel with
  | zero =>
    intro c acc out h
    exact absurd h (by simp [cdcLoop])
  | succ n ih =>
    intro c acc out h
    rcases hr : (env.resolve (env.dateOf (c + minutesPerDay))).1 with _ | nd
    · simp only [cdcLoop, hr, Option.some.injEq] at h
      exact ⟨[], by simp [h], specAccumRun.stopNone c hr⟩
    · simp only [cdcLoop, hr] at h
      by_cases hlt : e < nd
      · rw [if_pos hlt] at h
        have hout : acc = out := Option.some.inj h
        exact ⟨[], by simp [hout], specAccumRun.stopExceeds c nd hr hlt⟩
      · rw [if_neg hlt] at h
        obtain ⟨tail, htail, hrun⟩ := ih nd (acc ++ [nd]) out h
        exact ⟨nd :: tail, by simp [htail], specAccumRun.step c nd tail hr (not_lt.mp hlt) hrun⟩

/-- One unfolding of `cdcLoop` when the day's dawn resolves. -/
theorem cdcLoop_succ_some (env : DawnEnv) (e : Int) (fuel : Nat) (c : Int)
    (acc : List Int) (nd : Int)
    (hr : (env.resolve (env.dateOf (c + minutesPerDay))).1 = some nd) :
    cdcLoop env e (fuel + 1) c acc =
      if e < nd then some acc else cdcLoop env e fuel nd (acc ++ [nd]) := by
  simp only [cdcLoop, hr]

/-- Completeness of the fueled loop: with fuel one more than the run's
length, `cdcLoop` returns exactly the spec's accumulated list. -/
theorem cdcLoop_complete (env : DawnEnv) (e : Int) :
    ∀ (c : Int) (tail : List Int), specAccumRun env e c tail →
      ∀ acc, cdcLoop env e (tail.length + 1) c acc = some (acc ++ tail) := by
  intro c tail hrun
  induction hrun with
  | stopNone c hr =>
    intro acc; simp [cdcLoop, hr]
  | stopExceeds c d hr hlt =>
    intro acc; simp [cdcLoop, hr, if_pos hlt]
  | step c d l hr hle hsub ih =>
    intro acc
    have hnd : ¬ e < d := not_lt.mpr hle
    rw [cdcLoop_succ_some env e ((d :: l).length) c acc d hr, if_neg hnd,
      List.length_cons, ih (acc ++ [d])]
    simp

/-- C1: whenever `count_dawn_cycles` finishes, its result is exactly the
spec's description — accumulate dawns from `startDawn`, one calendar day at
a time, stopping the first time a resolved dawn exceeds `endDawn` or no
dawn resolves; append `endDawn` when the last accumulated dawn is strictly
before it; return the length of that dawn list minus one.  Conversely,
for every run of the spec's accumulation the source loop computes that
exact value (given fuel covering the run). -/
theorem countDawnCycles_spec (env : DawnEnv) (fuel : Nat) (s e : Int) :
    (∀ res, count_dawn_cycles env fuel s e = some res →
      ∃ tail, specAccumRun env e s tail ∧
        res = (specCloseDawns s e tail).length - 1) ∧
    (∀ tail, specAccumRun env e s tail →
      count_dawn_cycles env (tail.length + 1) s e =
        some ((specCloseDawns s e tail).length - 1)) := by
  constructor
  · intro res h
    obtain ⟨dawns, hloop, hres⟩ := Option.map_eq_some'.mp h
    obtain ⟨tail, htail, hrun⟩ := cdcLoop_sound env e fuel s [s] dawns hloop
    refine ⟨tail, hrun, ?_⟩
    subst htail
    exact hres.symm
  · intro tail hrun
    unfold count_dawn_cycles
    rw [cdcLoop_complete env e s tail hrun [s]]
    rfl

/-- Witness for C1: in the sample environment, counting from dawn `0` to
dawn `2000` finishes with value `2`, matching the spec's accumulation. -/
theorem countDawnCycles_spec_witness :
    ∃ tail, specAccumRun sampleDawnEnv 2000 0 tail ∧
      2 = (specCloseDawns 0 2000 tail).length - 1 :=
  (countDawnCycles_spec sampleDawnEnv 10 0 2000).1 2 rfl

/-- The closed dawn list always has at least two entries when
`startDawn < endDawn`. -/
theorem specCloseDawns_length (s e : Int) (tail : List Int) (hse : s < e)
    (hle : ∀ x ∈ tail, x ≤ e) : 2 ≤ (specCloseDawns s e tail).length := by
  unfold specCloseDawns
  by_cases hlast : (s :: tail).getLastD s < e
  · rw [if_pos hlast]
    simp [List.length_append]
  · rw [if_neg hlast]
    cases tail with
    | nil => exact absurd (by simpa using hse) hlast
    | cons t ts => simp

/-- C10: for `startDawn < endDawn`, a finished `count_dawn_cycles` is at
least 1 — the closing-boundary append guarantees at least two dawns. -/
theorem countDawnCycles_pos (env : DawnEnv) (fuel : Nat) (s e : Int)
    (hse : s < e) (res : Nat)
    (h : count_dawn_cycles env fuel s e = some res) : 1 ≤ res := by
  obtain ⟨dawns, hloop, hres⟩ := Option.map_eq_some'.mp h
  obtain ⟨tail, htail, hrun⟩ := cdcLoop_sound env e fuel s [s] dawns hloop
  subst htail
  have hlen : 2 ≤ (specCloseDawns s e tail).length :=
    specCloseDawns_length s e tail hse (specAccumRun_all_le env e s tail hrun)
  have : res = (specCloseDawns s e tail).length - 1 := hres.symm
  omega

/-- Witness for C10: the sample count from dawn 0 to dawn 2000 is `some 2`,
which is at least 1. -/
theorem countDawnCycles_pos_witness :
    count_dawn_cycles sampleDawnEnv 10 0 2000 = some 2 ∧ (1 : Nat) ≤ 2 :=
  ⟨rfl, countDawnCycles_pos sampleDawnEnv 10 0 2000 (by omega) 2 rfl⟩

/-! ## C7 — anomalous day counts are not tagged -/

/-- Counterexample for C7: a dawn-cycle count of 2 — far outside {29, 30}
— is stored by the month builder as the plain `some 2`, exactly the shape
a valid 29- or 30-day count would have: no sentinel, no tag, no clamping
distinguishes it. -/
theorem dayCount_anomaly_counterexample :
    count_dawn_cycles sampleDawnEnv 10 1 2001 = some 2 ∧
    (buildMonth sampleDawnEnv 10 0 2000).days = some 2 ∧
    ¬ ((2 : Nat) = 29 ∨ (2 : Nat) = 30) :=
  ⟨rfl, rfl, by decide⟩

/-- C7 (amended): whenever both boundary dawns of a month resolve and the
dawn-cycle count computes, the month record stores exactly that count as a
plain `some n` — it is never clamped, rejected or tagged, whatever its
value; only a missing boundary dawn produces the `None` sentinel. -/
theorem dayCount_passthrough (env : DawnEnv) (fuel : Nat) (moon b : Int)
    (a c : Int) (t1 t2 : Tag) (n : Nat)
    (h1 : find_first_dawn_after env moon = (some a, t1))
    (h2 : find_first_dawn_after env b = (some c, t2))
    (h3 : count_dawn_cycles env fuel a c = some n) :
    (buildMonth env fuel moon b).days = some n := by
  simp [buildMonth, h1, h2, h3]

/-- Witness for C7's amended theorem at the sample environment. -/
theorem dayCount_passthrough_witness :
    (buildMonth sampleDawnEnv 10 0 2000).days = some 2 :=
  dayCount_passthrough sampleDawnEnv 10 0 2000 1 2001 Tag.astronomical
    Tag.astronomical 2 rfl rfl rfl

/-! ## C8 — one bad month never blanks the build -/

/-- The month builder emits one record per full moon. -/
theorem buildMonths_length (env : DawnEnv) (fuel : Nat) :
    ∀ (moons : List Int) (anchor : Int),
      (buildMonths env fuel moons anchor).length = moons.length := by
  intro moons
  induction moons with
  | nil => intro _; rfl
  | cons m rest ih =>
    intro anchor
    cases rest with
    | nil => rfl
    | cons m2 rest' =>
      simp only [buildMonths, List.length_cons, ih anchor]

/-- Each emitted record carries the full moon it was built for, in order. -/
theorem buildMonths_moons (env : DawnEnv) (fuel : Nat) :
    ∀ (moons : List Int) (anchor : Int),
      (buildMonths env fuel moons anchor).map (fun r => r.full_moon_utc) =
        moons := by
  intro moons
  induction moons with
  | nil => intro _; rfl
  | cons m rest ih =>
    intro anchor
    cases rest with
    | nil => rfl
    | cons m2 rest' =>
      simp only [buildMonths, List.map_cons, ih anchor]
      rfl

/-- C8: a month whose start dawn or closing-boundary dawn is missing gets
the `None` day-count sentinel, yet the build's shape never changes — the
months list keeps one record per full moon (each keyed to its moon), and
the multi-year result has the same years and month counts whatever the
dawn resolver does, so one unresolvable month never aborts or blanks the
rest of the range. -/
theorem multiYear_resilient (env envB : DawnEnv) (yearOf : Int → Int)
    (fuel fuelB : Nat) (newYears fullMoons : List Int) (sy ey : Int) :
    (∀ moon b, ((find_first_dawn_after env moon).1 = none ∨
        (find_first_dawn_after env b).1 = none) →
      (buildMonth env fuel moon b).days = none) ∧
    (∀ moons anchor,
      (buildMonths env fuel moons anchor).length = moons.length ∧
      (buildMonths env fuel moons anchor).map (fun r => r.full_moon_utc) =
        moons) ∧
    ((get_multi_year_calendar_data env yearOf fuel newYears fullMoons sy ey).map
        (fun y => (y.year, y.months.length)) =
      (get_multi_year_calendar_data envB yearOf fuelB newYears fullMoons sy ey).map
        (fun y => (y.year, y.months.length))) := by
  refine ⟨?_, ?_, ?_⟩
  · intro moon b h
    rcases hd : find_first_dawn_after env moon with ⟨o1, t1⟩
    rcases hnd : find_first_dawn_after env b with ⟨o2, t2⟩
    rw [hd, hnd] at h
    cases o1 with
    | none => simp [buildMonth, hd, hnd]
    | some a =>
      cases o2 with
      | none => simp [buildMonth, hd, hnd]
      | some c => simp at h
  · intro moons anchor
    exact ⟨buildMonths_length env fuel moons anchor,
      buildMonths_moons env fuel moons anchor⟩
  · unfold get_multi_year_calendar_data
    rw [List.map_map, List.map_map]
    apply List.map_congr_left
    intro p hp
    simp [Function.comp, buildMonths_length]

/-- Witness for C8: with the never-resolving environment, a month's day
count is the `None` sentinel. -/
theorem multiYear_resilient_witness :
    (buildMonth barrenDawnEnv 5 0 100).days = none :=
  (multiYear_resilient barrenDawnEnv barrenDawnEnv (fun _ => 0) 5 5 [] [] 0 0).1
    0 100 (Or.inl rfl)

/-! ## C4 / C5 — year bracketing -/

/-- `Adjacent l p n` — `p` and `n` occur as adjacent entries of `l`. -/
inductive Adjacent : List Int → Int → Int → Prop
  | head (a b : Int) (rest : List Int) : Adjacent (a :: b :: rest) a b
  | tail (x : Int) (rest : List Int) (a b : Int) :
      Adjacent rest a b → Adjacent (x :: rest) a b

/-- In a strictly ascending list, every element is at most the last one. -/
theorem le_getLast_of_sorted :
    ∀ (l : List Int), List.Pairwise (· < ·) l →
      ∀ lst, l.getLast? = some lst → ∀ a ∈ l, a ≤ lst := by
  intro l
  induction l with
  | nil => simp
  | cons x xs ih =>
    intro hp lst hl a ha
    cases xs with
    | nil =>
      simp only [List.getLast?_singleton, Option.some.injEq] at hl
      subst hl
      exact le_of_eq (by simpa using ha)
    | cons y ys =>
      rw [List.getLast?_cons_cons] at hl
      obtain ⟨hx, hp'⟩ := List.pairwise_cons.mp hp
      rcases List.mem_cons.mp ha with rfl | hmem
      · have hlmem : lst ∈ y :: ys := by
          obtain ⟨hne, rfl⟩ := List.mem_getLast?_eq_getLast hl
          exact List.getLast_mem hne
        exact le_of_lt (hx lst hlmem)
      · exact ih hp' lst hl a hmem

/-- Scanning a strictly ascending anchor list for the greatest entry at or
before `now` and the least entry after `now` yields a true bracket of
adjacent entries, provided `now` lies inside the tabulated range. -/
theorem bracket_aux :
    ∀ (l : List Int), List.Pairwise (· < ·) l → ∀ now : Int,
      (∃ a ∈ l, a ≤ now) → (∃ b ∈ l, now < b) →
      ∃ p n, find_prev_next_new_year l now = (some p, some n) ∧
        p ≤ now ∧ now < n ∧ Adjacent l p n := by
  intro l
  induction l with
  | nil =>
    rintro _ now ⟨a, ha, _⟩ _
    exact absurd ha (List.not_mem_nil a)
  | cons a0 rest ih =>
    intro hp now hlo hhi
    obtain ⟨ha0, hp'⟩ := List.pairwise_cons.mp hp
    obtain ⟨a, ha, hale⟩ := hlo
    obtain ⟨b, hb, hblt⟩ := hhi
    have ha0le : a0 ≤ now := by
      rcases List.mem_cons.mp ha with rfl | hmem
      · exact hale
      · exact le_of_lt (lt_of_lt_of_le (ha0 a hmem) hale)
    cases rest with
    | nil =>
      rcases List.mem_cons.mp hb with rfl | hmem
      · exact absurd hblt (not_lt.mpr ha0le)
      · exact absurd hmem (List.not_mem_nil b)
    | cons a1 rest' =>
      have ha01 : a0 < a1 := ha0 a1 (List.mem_cons_self a1 rest')
      obtain ⟨ha1, hp''⟩ := List.pairwise_cons.mp hp'
      by_cases hcase : now < a1
      · -- the bracket closes right here: (a0, a1)
        have hfilt1 : (a0 :: a1 :: rest').filter (fun t => t ≤ now) = [a0] := by
          have hnil : (a1 :: rest').filter (fun t => t ≤ now) = [] := by
            rw [List.filter_eq_nil_iff]
            intro x hx
            simp only [decide_eq_true_eq, not_le]
            rcases List.mem_cons.mp hx with rfl | hx'
            · exact hcase
            · exact lt_trans hcase (ha1 x hx')
          simp [List.filter_cons, ha0le, hnil]
        have hfilt2 : (a0 :: a1 :: rest').filter (fun t => now < t) =
            a1 :: rest' := by
          have hall : (a1 :: rest').filter (fun t => now < t) = a1 :: rest' := by
            rw [List.filter_eq_self]
            intro x hx
            simp only [decide_eq_true_eq]
            rcases List.mem_cons.mp hx with rfl | hx'
            · exact hcase
            · exact lt_trans hcase (ha1 x hx')
          simp [List.filter_cons, not_lt.mpr ha0le, hall]
        refine ⟨a0, a1, ?_, ha0le, hcase, Adjacent.head a0 a1 rest'⟩
        refine Prod.ext ?_ ?_
        · show seriesMax ((a0 :: a1 :: rest').filter fun t => t ≤ now) = some a0
          rw [hfilt1]; rfl
        · show seriesMin ((a0 :: a1 :: rest').filter fun t => now < t) = some a1
          rw [hfilt2]
          simp [seriesMin, foldl_min_of_le a1 rest' fun c hc => le_of_lt (ha1 c hc)]
      · -- `now` is past a1: the bracket lives in the tail
        push_neg at hcase
        have hbrest : b ∈ a1 :: rest' := by
          rcases List.mem_cons.mp hb with rfl | hmem
          · exact absurd hblt (not_lt.mpr ha0le)
          · exact hmem
        obtain ⟨p, n, heq, hple, hnlt, hadj⟩ :=
          ih hp' now ⟨a1, List.mem_cons_self a1 rest', hcase⟩ ⟨b, hbrest, hblt⟩
        have hfst : seriesMax ((a1 :: rest').filter fun t => t ≤ now) = some p :=
          congrArg Prod.fst heq
        have hsnd : seriesMin ((a1 :: rest').filter fun t => now < t) = some n :=
          congrArg Prod.snd heq
        refine ⟨p, n, ?_, hple, hnlt, Adjacent.tail a0 _ p n hadj⟩
        refine Prod.ext ?_ ?_
        · show seriesMax ((a0 :: a1 :: rest').filter fun t => t ≤ now) = some p
          rcases hfe : (a1 :: rest').filter (fun t => t ≤ now) with _ | ⟨h1, t1⟩
          · rw [List.filter_eq_nil_iff] at hfe
            exact absurd (by simpa using hcase)
              (hfe a1 (List.mem_cons_self a1 rest'))
          · have hcons : (a0 :: a1 :: rest').filter (fun t => t ≤ now) =
                a0 :: h1 :: t1 := by
              simp [List.filter_cons, ha0le, hfe]
            have hh1mem : h1 ∈ a1 :: rest' :=
              List.mem_of_mem_filter (hfe ▸ List.mem_cons_self h1 t1)
            have ha0h1 : a0 ≤ h1 := le_of_lt (ha0 h1 hh1mem)
            rw [hcons, seriesMax, foldl_max_absorb a0 h1 t1 ha0h1]
            rw [hfe] at hfst
            simpa [seriesMax] using hfst
        · show seriesMin ((a0 :: a1 :: rest').filter fun t => now < t) = some n
          have hcons : (a0 :: a1 :: rest').filter (fun t => now < t) =
              (a1 :: rest').filter (fun t => now < t) := by
            simp [List.filter_cons, not_lt.mpr ha0le]
          rw [hcons]
          exact hsnd

/-- C4: for every `nowUtc` within the tabulated range of the new-year
series (at or after the first entry, strictly before the last),
`bracketYear` (`find_prev_next_new_year`) returns a pair of anchors with
`prevAnchor ≤ nowUtc < nextAnchor`, and the two are adjacent entries of the
series. -/
theorem bracketYear_bracket (anchors : List Int) (nowUtc first lastA : Int)
    (hsorted : List.Chain' (· < ·) anchors)
    (hfirst : anchors.head? = some first)
    (hlast : anchors.getLast? = some lastA)
    (hlo : first ≤ nowUtc) (hhi : nowUtc < lastA) :
    ∃ p n, find_prev_next_new_year anchors nowUtc = (some p, some n) ∧
      p ≤ nowUtc ∧ nowUtc < n ∧ Adjacent anchors p n := by
  have hp : List.Pairwise (· < ·) anchors := List.chain'_iff_pairwise.mp hsorted
  have hfm : first ∈ anchors := List.mem_of_mem_head? hfirst
  have hlm : lastA ∈ anchors := by
    obtain ⟨hne, rfl⟩ := List.mem_getLast?_eq_getLast hlast
    exact List.getLast_mem hne
  exact bracket_aux anchors hp nowUtc ⟨first, hfm, hlo⟩ ⟨lastA, hlm, hhi⟩

/-- Witness for C4: anchors `[0, 100, 200]` with `now = 150` bracket as
`(100, 200)`. -/
theorem bracketYear_bracket_witness :
    ∃ p n, find_prev_next_new_year [(0 : Int), 100, 200] 150 = (some p, some n) ∧
      p ≤ 150 ∧ (150 : Int) < n ∧ Adjacent [(0 : Int), 100, 200] p n :=
  bracketYear_bracket [0, 100, 200] 150 0 200
    (by simp [List.chain'_cons]) rfl rfl (by omega) (by omega)

/-- C5: for `nowUtc` strictly before the first tabulated anchor the `prev`
slot of the returned pair is the empty-selection sentinel (`NaT`/`None`,
modelled `none`) rather than any anchor, and symmetrically for `nowUtc` at
or after the last anchor the `next` slot is the sentinel — an out-of-range
call is distinguishable from every in-range bracket and never yields a
false bracket of two anchors. -/
theorem bracketYear_out_of_range (anchors : List Int) (nowUtc : Int)
    (hsorted : List.Chain' (· < ·) anchors) :
    (∀ first, anchors.head? = some first → nowUtc < first →
      (find_prev_next_new_year anchors nowUtc).1 = none) ∧
    (∀ lastA, anchors.getLast? = some lastA → lastA ≤ nowUtc →
      (find_prev_next_new_year anchors nowUtc).2 = none) := by
  have hp : List.Pairwise (· < ·) anchors := List.chain'_iff_pairwise.mp hsorted
  constructor
  · intro first hfirst hlt
    show seriesMax (anchors.filter fun t => t ≤ nowUtc) = none
    have hnil : anchors.filter (fun t => t ≤ nowUtc) = [] := by
      rw [List.filter_eq_nil_iff]
      intro x hx
      simp only [decide_eq_true_eq, not_le]
      cases anchors with
      | nil => exact absurd hx (List.not_mem_nil x)
      | cons a0 rest =>
        have h0 : a0 = first := by simpa using hfirst
        subst h0
        rcases List.mem_cons.mp hx with rfl | hmem
        · exact hlt
        · exact lt_trans hlt ((List.pairwise_cons.mp hp).1 x hmem)
    rw [hnil]; rfl
  · intro lastA hlast hle
    show seriesMin (anchors.filter fun t => nowUtc < t) = none
    have hnil : anchors.filter (fun t => nowUtc < t) = [] := by
      rw [List.filter_eq_nil_iff]
      intro x hx
      simp only [decide_eq_true_eq, not_lt]
      exact le_trans (le_getLast_of_sorted anchors hp lastA hlast x hx) hle
    rw [hnil]; rfl

/-- Witness for C5: with anchors `[0, 100, 200]`, a query at `-5` (before
the first anchor) gets the `none` sentinel in the `prev` slot. -/
theorem bracketYear_out_of_range_witness :
    (find_prev_next_new_year [(0 : Int), 100, 200] (-5)).1 = none :=
  (bracketYear_out_of_range [(0 : Int), 100, 200] (-5)
    (by simp [List.chain'_cons])).1 0 rfl (by omega)

/-- Witness for C2: in the always-resolving sample environment, the first
probe (`i = 0`) already qualifies. -/
theorem firstDawnAfter_spec_witness :
    (5 : Int) < 6 ∧ ∃ i : Nat, i < 10 ∧
      sampleDawnEnv.resolve (sampleDawnEnv.dateOf 5 + (i : Int)) =
        (some 6, Tag.astronomical) ∧
      ∀ j : Nat, j < i →
        ∀ w, (sampleDawnEnv.resolve (sampleDawnEnv.dateOf 5 + (j : Int))).1 =
          some w → w ≤ 5 :=
  (firstDawnAfter_spec sampleDawnEnv 5).1 6 Tag.astronomical rfl
